import Mathlib

set_option linter.unusedVariables false

/-!
Verification of the client-side synchronization protocol and entity
lifecycle of the scrunch prototype.

The development shallowly embeds three pieces of the client:

* the wire codec (a msgpack-style binary map/array encoding; the concrete
  codec is an external library, so the byte format is modelled from the
  spec's wire-format description),
* the `Connection` message dispatch and senders (`src/unnamed/part_000`),
* the `Entity` lifecycle state machine (modelled from the spec's §4.3 and
  §7: its defining file is not among the staged sources).

All definitions are executable, and the theorems at the end of the file
settle the individual claims about the specification.
-/

namespace Scrunch

/-! ## Wire codec values

Modelled from the spec: the Wire Codec serializes a 2-element envelope
`[messageType, payload]` using a schema-less binary map/array encoding
(msgpack); the codec itself is type-agnostic and treats the payload as an
arbitrary nested map/array/scalar tree.  The concrete codec library is not
part of this repository's sources, so the byte-level format is modelled
here: integers, strings (as byte lists, the codec is transparent in the
string's bytes), arrays, and maps with string keys — the value subset the
protocol's wire-format table uses. -/

mutual
inductive MVal where
  | mint : Int → MVal
  | mstr : List Nat → MVal
  | marr : MList → MVal
  | mmap : MPairs → MVal
deriving DecidableEq, Repr
inductive MList where
  | mnil : MList
  | mcons : MVal → MList → MList
deriving DecidableEq, Repr
inductive MPairs where
  | pnil : MPairs
  | pcons : List Nat → MVal → MPairs → MPairs
deriving DecidableEq, Repr
end

/-- Number of elements of an encoded array value. -/
def MList.length : MList → Nat
  | .mnil => 0
  | .mcons _ l => l.length + 1

/-- Number of key/value entries of an encoded map value. -/
def MPairs.length : MPairs → Nat
  | .pnil => 0
  | .pcons _ _ p => p.length + 1

/-- The elements of an array value, as a Lean list. -/
def MList.toList : MList → List MVal
  | .mnil => []
  | .mcons v l => v :: l.toList

/-- Big-endian 2-byte encoding of a number below `2^16`. -/
def be2 (m : Nat) : List Nat := [m / 256 % 256, m % 256]

/-- Big-endian 4-byte encoding of a number below `2^32`. -/
def be4 (m : Nat) : List Nat :=
  [m / 16777216 % 256, m / 65536 % 256, m / 256 % 256, m % 256]

/-- Msgpack integer encoding, choosing the smallest canonical form:
positive fixint, uint8/16/32, negative fixint, int8/16/32. -/
def encodeInt (n : Int) : List Nat :=
  if 0 ≤ n then
    let m := n.toNat
    if m < 128 then [m]
    else if m < 256 then [204, m]
    else if m < 65536 then 205 :: be2 m
    else 206 :: be4 m
  else
    if -32 ≤ n then [(n + 256).toNat]
    else if -128 ≤ n then [208, (n + 256).toNat]
    else if -32768 ≤ n then 209 :: be2 (n + 65536).toNat
    else 210 :: be4 (n + 4294967296).toNat

/-- Msgpack string header for a byte length: fixstr, str8, str16 or str32. -/
def strHeader (len : Nat) : List Nat :=
  if len < 32 then [160 + len]
  else if len < 256 then [217, len]
  else if len < 65536 then 218 :: be2 len
  else 219 :: be4 len

/-- Msgpack string encoding: header followed by the raw bytes. -/
def encodeStr (s : List Nat) : List Nat := strHeader s.length ++ s

/-- Msgpack array header: fixarray, array16 or array32. -/
def arrHeader (len : Nat) : List Nat :=
  if len < 16 then [144 + len]
  else if len < 65536 then 220 :: be2 len
  else 221 :: be4 len

/-- Msgpack map header: fixmap, map16 or map32. -/
def mapHeader (len : Nat) : List Nat :=
  if len < 16 then [128 + len]
  else if len < 65536 then 222 :: be2 len
  else 223 :: be4 len

mutual
/-- Msgpack encoding of a value. -/
def encodeV : MVal → List Nat
  | .mint n => encodeInt n
  | .mstr s => encodeStr s
  | .marr l => arrHeader l.length ++ encodeL l
  | .mmap p => mapHeader p.length ++ encodeP p
/-- Msgpack encoding of the elements of an array, concatenated. -/
def encodeL : MList → List Nat
  | .mnil => []
  | .mcons v l => encodeV v ++ encodeL l
/-- Msgpack encoding of the entries of a map: each key as a string,
followed by its value. -/
def encodeP : MPairs → List Nat
  | .pnil => []
  | .pcons k v p => encodeStr k ++ encodeV v ++ encodeP p
end

/-- Read exactly `n` raw bytes, returning them and the unconsumed tail. -/
def readBytes : Nat → List Nat → Option (List Nat × List Nat)
  | 0, bs => some ([], bs)
  | _+1, [] => none
  | n+1, b :: bs =>
    match readBytes n bs with
    | some (s, r) => some (b :: s, r)
    | none => none

/-- Decode one msgpack string (fixstr/str8/str16/str32), returning its raw
bytes and the unconsumed tail. -/
def readStr : List Nat → Option (List Nat × List Nat)
  | [] => none
  | b :: bs =>
    if 160 ≤ b ∧ b < 192 then readBytes (b - 160) bs
    else if b = 217 then
      match bs with
      | l :: r => readBytes l r
      | [] => none
    else if b = 218 then
      match bs with
      | b1 :: b2 :: r => readBytes (b1 * 256 + b2) r
      | _ => none
    else if b = 219 then
      match bs with
      | b1 :: b2 :: b3 :: b4 :: r => readBytes (((b1 * 256 + b2) * 256 + b3) * 256 + b4) r
      | _ => none
    else none

/-- String head-byte test: the byte ranges `readStr` accepts. -/
def isStrHead (b : Nat) : Bool :=
  (160 ≤ b && b < 192) || b = 217 || b = 218 || b = 219

mutual
/-- Fuel-indexed msgpack decoder for one value.  Returns the decoded value
and the unconsumed tail, or `none` on truncated or ill-formed input (the
`MalformedFrame` failure of the spec); it never gets stuck. -/
def decodeV : Nat → List Nat → Option (MVal × List Nat)
  | 0, _ => none
  | _+1, [] => none
  | fuel+1, b :: bs =>
    if isStrHead b then (readStr (b :: bs)).map (fun x => (.mstr x.1, x.2))
    else if b < 128 then some (.mint b, bs)
    else if b < 144 then (decodeP fuel (b - 128) bs).map (fun x => (.mmap x.1, x.2))
    else if b < 160 then (decodeL fuel (b - 144) bs).map (fun x => (.marr x.1, x.2))
    else if b = 204 then
      match bs with
      | c :: r => some (.mint c, r)
      | [] => none
    else if b = 205 then
      match bs with
      | c1 :: c2 :: r => some (.mint (c1 * 256 + c2), r)
      | _ => none
    else if b = 206 then
      match bs with
      | c1 :: c2 :: c3 :: c4 :: r =>
        some (.mint (((c1 * 256 + c2) * 256 + c3) * 256 + c4), r)
      | _ => none
    else if b = 208 then
      match bs with
      | c :: r => some (.mint (if 128 ≤ c then (c : Int) - 256 else (c : Int)), r)
      | [] => none
    else if b = 209 then
      match bs with
      | c1 :: c2 :: r =>
        let m := c1 * 256 + c2
        some (.mint (if 32768 ≤ m then (m : Int) - 65536 else (m : Int)), r)
      | _ => none
    else if b = 210 then
      match bs with
      | c1 :: c2 :: c3 :: c4 :: r =>
        let m := ((c1 * 256 + c2) * 256 + c3) * 256 + c4
        some (.mint (if 2147483648 ≤ m then (m : Int) - 4294967296 else (m : Int)), r)
      | _ => none
    else if b = 220 then
      match bs with
      | b1 :: b2 :: r => (decodeL fuel (b1 * 256 + b2) r).map (fun x => (.marr x.1, x.2))
      | _ => none
    else if b = 221 then
      match bs with
      | b1 :: b2 :: b3 :: b4 :: r =>
        (decodeL fuel (((b1 * 256 + b2) * 256 + b3) * 256 + b4) r).map
          (fun x => (.marr x.1, x.2))
      | _ => none
    else if b = 222 then
      match bs with
      | b1 :: b2 :: r => (decodeP fuel (b1 * 256 + b2) r).map (fun x => (.mmap x.1, x.2))
      | _ => none
    else if b = 223 then
      match bs with
      | b1 :: b2 :: b3 :: b4 :: r =>
        (decodeP fuel (((b1 * 256 + b2) * 256 + b3) * 256 + b4) r).map
          (fun x => (.mmap x.1, x.2))
      | _ => none
    else if 224 ≤ b ∧ b < 256 then some (.mint ((b : Int) - 256), bs)
    else none
/-- Decode a fixed number of consecutive array elements. -/
def decodeL : Nat → Nat → List Nat → Option (MList × List Nat)
  | _, 0, bs => some (.mnil, bs)
  | 0, _+1, _ => none
  | fuel+1, n+1, bs =>
    (decodeV fuel bs).bind fun x =>
      (decodeL fuel n x.2).map fun y => (.mcons x.1 y.1, y.2)
/-- Decode a fixed number of consecutive key/value map entries. -/
def decodeP : Nat → Nat → List Nat → Option (MPairs × List Nat)
  | _, 0, bs => some (.pnil, bs)
  | 0, _+1, _ => none
  | fuel+1, n+1, bs =>
    (readStr bs).bind fun k =>
      (decodeV fuel k.2).bind fun x =>
        (decodeP fuel n x.2).map fun y => (.pcons k.1 x.1 y.1, y.2)
end

/-- Msgpack encoding of a value: the codec's `encode(envelope) -> bytes`. -/
def encode (v : MVal) : List Nat := encodeV v

/-- Msgpack decoding of a byte frame: the codec's `decode(bytes) -> envelope`.
Twice the frame length is always enough fuel to decode one value. -/
def decode (bytes : List Nat) : Option MVal :=
  (decodeV (2 * bytes.length) bytes).map Prod.fst

mutual
/-- Fuel sufficient to decode a value of this shape. -/
def countV : MVal → Nat
  | .mint _ => 1
  | .mstr _ => 1
  | .marr l => countL l + 1
  | .mmap p => countP p + 1
/-- Fuel sufficient to decode these array elements. -/
def countL : MList → Nat
  | .mnil => 0
  | .mcons v l => countV v + countL l + 1
/-- Fuel sufficient to decode these map entries. -/
def countP : MPairs → Nat
  | .pnil => 0
  | .pcons _ v p => countV v + countP p + 1
end

/-- Integers msgpack represents exactly with the forms of `encodeInt`
(the protocol's integers are int32/uint32-ranged). -/
def validInt (n : Int) : Bool := decide (-2147483648 ≤ n) && decide (n < 4294967296)

/-- Well-formed string payload: raw bytes, encodable length. -/
def validStrBytes (s : List Nat) : Bool :=
  s.all (fun b => b < 256) && decide (s.length < 4294967296)

mutual
/-- Values the modelled codec can represent exactly. -/
def validV : MVal → Bool
  | .mint n => validInt n
  | .mstr s => validStrBytes s
  | .marr l => decide (l.length < 4294967296) && validL l
  | .mmap p => decide (p.length < 4294967296) && validP p
/-- All array elements are representable. -/
def validL : MList → Bool
  | .mnil => true
  | .mcons v l => validV v && validL l
/-- All map keys are well-formed strings and all values representable. -/
def validP : MPairs → Bool
  | .pnil => true
  | .pcons k v p => validStrBytes k && validV v && validP p
end

/-! ## Entity lifecycle state machine (spec §4.3)

Modelled from the spec: the entity class's defining file (`Entity.ts`) is
not among the staged sources, so the lifecycle operations follow the
spec's words (§4.3 and §7).  An entity record carries identity, kind,
grid index, lifecycle state and the auto-reposition flag, plus the visual
position; the world collaborator's coordinate projection is external, so
every operation that uses it takes the projection functions as
arguments.  Operations return, next to the updated entity, the list of
console messages they report — per §7, a `LifecycleViolation` is a
programming error that is surfaced (reported), not silently ignored. -/

/-- Calls the dispatcher makes on the world collaborator `Game.shared`,
with the JS values it passes (an absent value is `none`, JS `undefined`). -/
inductive GameCall where
  | setMainPlayer (v : Option MVal)
  | setSpectating (v : Option MVal)
  | setMapSize (v : Option MVal)
  | addEntity (v : MVal)
  | updateEntityCall (v : MVal)
  | removeEntity (v : MVal) (animated : Bool)
deriving DecidableEq, Repr

/-- Observable effects of running the message handler on one frame. -/
inductive Effect where
  | logError (msg : String)
  | logWarn (msg : String)
  | game (c : GameCall)
  | fault
deriving DecidableEq, Repr

/-- Element lookup in an array value. -/
def MList.get? : MList → Nat → Option MVal
  | .mnil, _ => none
  | .mcons v _, 0 => some v
  | .mcons _ l, n+1 => l.get? n

/-- Key lookup in a map value. -/
def MPairs.lookup : MPairs → List Nat → Option MVal
  | .pnil, _ => none
  | .pcons k v p, key => if k = key then some v else p.lookup key

/-- Decimal digits of a natural number as ASCII bytes: JS coerces a
numeric property name to a string. -/
def decBytes (n : Nat) : List Nat :=
  if n < 10 then [48 + n] else decBytes (n / 10) ++ [48 + n % 10]
termination_by n
decreasing_by omega

/-- JS property access `v[i]` on a decoded msgpack value: array index,
string character access (yielding a one-character string), object property
lookup; anything else, or an out-of-range access, is `undefined`. -/
def jsIdx : Option MVal → Nat → Option MVal
  | none, _ => none
  | some (.mint _), _ => none
  | some (.mstr s), i => (s.get? i).map (fun c => .mstr [c])
  | some (.marr l), i => l.get? i
  | some (.mmap p), i => p.lookup (decBytes i)

/-- JS `typeof`, as the ASCII bytes of the strings "undefined", "number",
"string" and "object". -/
def jsTypeof : Option MVal → List Nat
  | none => [117, 110, 100, 101, 102, 105, 110, 101, 100]
  | some (.mint _) => [110, 117, 109, 98, 101, 114]
  | some (.mstr _) => [115, 116, 114, 105, 110, 103]
  | some (.marr _) => [111, 98, 106, 101, 99, 116]
  | some (.mmap _) => [111, 98, 106, 101, 99, 116]

/-- ECMAScript loose equality `x == undefined`: true exactly when `x` is
itself `undefined` (or `null`, which the decoded value subset does not
contain). -/
def jsLooseEqUndefined : Option MVal → Bool
  | none => true
  | some _ => false

/-- The handler's guard `typeof type == undefined`, exactly as written: the
string result of `typeof` compared loosely against the undefined value. -/
def noTypeGuard (ty : Option MVal) : Bool :=
  jsLooseEqUndefined (some (.mstr (jsTypeof ty)))

/-- JS strict equality of a value against an integer literal, as used by
the `switch` dispatch on the message type. -/
def jsStrictEqInt : Option MVal → Int → Bool
  | some (.mint m), n => m == n
  | _, _ => false

/-- Embedding of `Connection.onJoin`: records the assigned identity as main
player and as spectate target, in that order. -/
def onJoin (data : Option MVal) : List Effect :=
  [.game (.setMainPlayer data), .game (.setSpectating data)]

/-- JS `forEach` over a value: the per-element effects when the value is an
array; `none` models the TypeError thrown when it is not. -/
def forEachEffects (v : Option MVal) (f : MVal → Effect) : Option (List Effect) :=
  match v with
  | some (.marr l) => some (l.toList.map f)
  | _ => none

/-- Embedding of `Connection.onUpdate`: sets the map size from `data[0]`,
then iterates `data[1]` through `data[4]` in order — appeared, updated,
disappeared (`removeEntity(id, false)`), destroyed
(`removeEntity(id, true)`).  A `forEach` on a non-array throws, aborting
the rest of the handler: recorded as a `fault` effect. -/
def onUpdate (data : Option MVal) : List Effect :=
  Effect.game (.setMapSize (jsIdx data 0)) ::
    match forEachEffects (jsIdx data 1) (fun e => .game (.addEntity e)) with
    | none => [.fault]
    | some l1 => l1 ++
      match forEachEffects (jsIdx data 2) (fun e => .game (.updateEntityCall e)) with
      | none => [.fault]
      | some l2 => l2 ++
        match forEachEffects (jsIdx data 3) (fun e => .game (.removeEntity e false)) with
        | none => [.fault]
        | some l3 => l3 ++
          match forEachEffects (jsIdx data 4) (fun e => .game (.removeEntity e true)) with
          | none => [.fault]
          | some l4 => l4

/-- Console text of the decode-failure branch. -/
def couldNotParseMsg : String := "Could not parse message"

/-- Console text of the (unreachable) missing-type branch. -/
def noTypeMsg : String := "No type in message"

/-- Console text of the unknown-type `switch` branch. -/
def unknownTypeMsg : String := "Unknown message type"

/-- Embedding of `Connection.onMessage`: decode the frame inside
`try`/`catch` (a failure logs and returns), read `messageData[0]` and
`messageData[1]`, run the `typeof` guard, then `switch` on the type with
strict comparisons against `Join = 0` and `Update = 1`. -/
def onMessage (frame : List Nat) : List Effect :=
  match decode frame with
  | none => [.logError couldNotParseMsg]
  | some md =>
    let ty := jsIdx (some md) 0
    let data := jsIdx (some md) 1
    if noTypeGuard ty then [.logWarn noTypeMsg]
    else if jsStrictEqInt ty 0 then onJoin data
    else if jsStrictEqInt ty 1 then onUpdate data
    else [.logError unknownTypeMsg]

/-- The transport delivering a sequence of frames to the handler, one
`onmessage` callback per frame, in order. -/
def processFrames (frames : List (List Nat)) : List Effect :=
  frames.foldl (fun acc f => acc ++ onMessage f) []

/-- The WebSocket ready states. -/
inductive ReadyState where
  | connecting
  | opened
  | closing
  | closed
deriving DecidableEq, Repr

/-- Embedding of `Connection.sendMessage`: builds `[type, data]`, encodes
it, and hands it to `socket.send` — the returned list is the sequence of
frames given to the socket by the call.  The body reads no connection
state, so the result cannot depend on the ready state passed in. -/
def sendMessage (st : ReadyState) (ty : Int) (data : MVal) : List (List Nat) :=
  [encode (.marr (.mcons (.mint ty) (.mcons data .mnil)))]

/-- Embedding of `Connection.sendJoin`: sends `[Join, username]`. -/
def sendJoin (st : ReadyState) (username : List Nat) : List (List Nat) :=
  sendMessage st 0 (.mstr username)

/-- Embedding of `Connection.sendMove`: sends `[Move, [x, y]]`. -/
def sendMove (st : ReadyState) (x y : Int) : List (List Nat) :=
  sendMessage st 1 (.marr (.mcons (.mint x) (.mcons (.mint y) .mnil)))

/-- Modelled from the spec: the send behavior of the external WebSocket
transport, which is not part of this repository's sources — sending while
connecting raises an InvalidStateError, while closing or closed the frame
is silently dropped, while open it is transmitted. -/
inductive SendOutcome where
  | transmitted
  | dropped
  | raisedInvalidState
deriving DecidableEq, Repr

/-- Modelled from the spec: what `WebSocket.send` does with a frame in each
ready state (see `SendOutcome`). -/
def socketSendOutcome : ReadyState → SendOutcome
  | .connecting => .raisedInvalidState
  | .opened => .transmitted
  | .closing => .dropped
  | .closed => .dropped

/-! ## Wire-format envelope shapes (spec §6) -/

/-- ASCII bytes of the property key `id`. -/
def keyId : List Nat := [105, 100]

/-- ASCII bytes of the property key `kind`. -/
def keyKind : List Nat := [107, 105, 110, 100]

/-- ASCII bytes of the property key `index`. -/
def keyIndex : List Nat := [105, 110, 100, 101, 120]

/-- A pair of integers: the wire format's grid index and the Move
payload. -/
def isIndexPair : MVal → Bool
  | .marr (.mcons (.mint x) (.mcons (.mint y) .mnil)) => validInt x && validInt y
  | _ => false

/-- Wire shape of `EntityInitData`.  Modelled from the spec: the defining
file is not among the sources; the minimum fields are identity, kind and
index, transmitted as a map in declaration order. -/
def isInitData : MVal → Bool
  | .mmap (.pcons a (.mint i) (.pcons b (.mint k) (.pcons c idx .pnil))) =>
      a == keyId && b == keyKind && c == keyIndex &&
      validInt i && validInt k && isIndexPair idx
  | _ => false

/-- Wire shape of `EntityUpdateData`.  Modelled from the spec: identity and
index, transmitted as a map in declaration order. -/
def isUpdateData : MVal → Bool
  | .mmap (.pcons a (.mint i) (.pcons c idx .pnil)) =>
      a == keyId && c == keyIndex && validInt i && isIndexPair idx
  | _ => false

/-- Every array element satisfies the given shape test. -/
def allL (f : MVal → Bool) : MList → Bool
  | .mnil => true
  | .mcons v l => f v && allL f l

/-- An integer entity identity. -/
def isIntId : MVal → Bool
  | .mint n => validInt n
  | _ => false

/-- Wire shape of the Update payload: the 5-tuple
`[mapSize, appeared, updated, disappearedIds, destroyedIds]`. -/
def isUpdatePayload : MVal → Bool
  | .marr (.mcons (.mint ms) (.mcons (.marr a) (.mcons (.marr u)
      (.mcons (.marr dis) (.mcons (.marr des) .mnil))))) =>
      validInt ms &&
      decide (a.length < 4294967296) && allL isInitData a &&
      decide (u.length < 4294967296) && allL isUpdateData u &&
      decide (dis.length < 4294967296) && allL isIntId dis &&
      decide (des.length < 4294967296) && allL isIntId des
  | _ => false

/-- Wire shape of the outbound Join payload: a username string. -/
def isJoinOutPayload : MVal → Bool
  | .mstr s => validStrBytes s
  | _ => false

/-- Envelopes of the wire-format table: `[type, payload]` where type 0 is
Join (inbound: assigned integer identity; outbound: username string) and
type 1 is Update (the 5-tuple) or Move (the `[x, y]` pair). -/
def validEnvelope : MVal → Bool
  | .marr (.mcons (.mint t) (.mcons payload .mnil)) =>
      (t == 0 && (isIntId payload || isJoinOutPayload payload)) ||
      (t == 1 && (isUpdatePayload payload || isIndexPair payload))
  | _ => false

/-! ## Concrete inputs used to witness the theorems -/

/-- The Update payload value `[mapSize, appeared, updated, disappeared,
destroyed]`, as the handler receives it. -/
def updData (m : MVal) (a u dis des : MList) : Option MVal :=
  some (.marr (.mcons m (.mcons (.marr a) (.mcons (.marr u)
    (.mcons (.marr dis) (.mcons (.marr des) .mnil))))))

/-- An Update payload with one disappeared id (5) and one destroyed id
(9). -/
def updDataRemovals : Option MVal :=
  updData (.mint 7) .mnil .mnil (.mcons (.mint 5) .mnil) (.mcons (.mint 9) .mnil)

/-- A concrete `EntityInitData` wire value: `{id: 1, kind: 0,
index: [2, 3]}`. -/
def exInitData : MVal :=
  .mmap (.pcons keyId (.mint 1) (.pcons keyKind (.mint 0)
    (.pcons keyIndex (.marr (.mcons (.mint 2) (.mcons (.mint 3) .mnil))) .pnil)))

/-- A concrete Update envelope:
`[1, [50, [{id: 1, kind: 0, index: [2, 3]}], [], [], []]]`. -/
def exEnvelope : MVal :=
  .marr (.mcons (.mint 1) (.mcons (.marr (.mcons (.mint 50)
    (.mcons (.marr (.mcons exInitData .mnil)) (.mcons (.marr .mnil)
    (.mcons (.marr .mnil) (.mcons (.marr .mnil) .mnil)))))) .mnil))

theorem readBytes_append (s r : List Nat) : readBytes s.length (s ++ r) = some (s, r) := by
  induction s with
  | nil => simp [readBytes]
  | cons b t ih => simp [readBytes, ih]

theorem validStrBytes_length {s : List Nat} (h : validStrBytes s = true) :
    s.length < 4294967296 := by
  simp only [validStrBytes, Bool.and_eq_true, decide_eq_true_eq] at h
  exact h.2

theorem readStr_encodeStr (s : List Nat) (h : validStrBytes s = true) (r : List Nat) :
    readStr (encodeStr s ++ r) = some (s, r) := by
  have hlen := validStrBytes_length h
  by_cases h32 : s.length < 32
  · have hE : encodeStr s ++ r = (160 + s.length) :: (s ++ r) := by
      simp [encodeStr, strHeader, if_pos h32]
    rw [hE]
    simp only [readStr]
    rw [if_pos (by omega : 160 ≤ 160 + s.length ∧ 160 + s.length < 192)]
    have h160 : 160 + s.length - 160 = s.length := by omega
    rw [h160, readBytes_append]
  · by_cases h256 : s.length < 256
    · have hE : encodeStr s ++ r = 217 :: s.length :: (s ++ r) := by
        simp [encodeStr, strHeader, if_neg h32, if_pos h256]
      rw [hE]
      simp only [readStr]
      rw [if_neg (by omega), if_pos trivial, readBytes_append]
    · by_cases h65 : s.length < 65536
      · have hE : encodeStr s ++ r =
            218 :: (s.length / 256 % 256) :: (s.length % 256) :: (s ++ r) := by
          simp [encodeStr, strHeader, be2, if_neg h32, if_neg h256, if_pos h65]
        rw [hE]
        simp only [readStr]
        rw [if_neg (by omega), if_neg (by omega), if_pos trivial]
        have hrec : s.length / 256 % 256 * 256 + s.length % 256 = s.length := by omega
        rw [hrec, readBytes_append]
      · have hE : encodeStr s ++ r =
            219 :: (s.length / 16777216 % 256) :: (s.length / 65536 % 256) ::
              (s.length / 256 % 256) :: (s.length % 256) :: (s ++ r) := by
          simp [encodeStr, strHeader, be4, if_neg h32, if_neg h256, if_neg h65]
        rw [hE]
        simp only [readStr]
        rw [if_neg (by omega), if_neg (by omega), if_neg (by omega), if_pos trivial]
        have hrec : ((s.length / 16777216 % 256 * 256 + s.length / 65536 % 256) * 256 +
            s.length / 256 % 256) * 256 + s.length % 256 = s.length := by omega
        rw [hrec, readBytes_append]

theorem isStrHead_iff {b : Nat} :
    isStrHead b = true ↔ ((160 ≤ b ∧ b < 192) ∨ b = 217 ∨ b = 218 ∨ b = 219) := by
  simp only [isStrHead, Bool.or_eq_true, Bool.and_eq_true, decide_eq_true_eq]
  tauto

theorem decodeV_strhead (fuel b : Nat) (bs : List Nat) (h : isStrHead b = true) :
    decodeV (fuel+1) (b :: bs) =
      (readStr (b :: bs)).map (fun x => (MVal.mstr x.1, x.2)) := by
  simp only [decodeV]
  rw [if_pos h]

theorem decodeV_posfix (fuel b : Nat) (bs : List Nat) (h : b < 128) :
    decodeV (fuel+1) (b :: bs) = some (.mint b, bs) := by
  simp only [decodeV]
  rw [if_neg (by rw [isStrHead_iff]; omega), if_pos h]

theorem decodeV_negfix (fuel b : Nat) (bs : List Nat) (h1 : 224 ≤ b) (h2 : b < 256) :
    decodeV (fuel+1) (b :: bs) = some (.mint ((b : Int) - 256), bs) := by
  simp only [decodeV]
  rw [if_neg (by rw [isStrHead_iff]; omega)]
  repeat rw [if_neg (by omega)]
  rw [if_pos (⟨h1, h2⟩ : 224 ≤ b ∧ b < 256)]

theorem decodeV_fixmap (fuel n : Nat) (bs : List Nat) (h : n < 16) :
    decodeV (fuel+1) ((128 + n) :: bs) =
      (decodeP fuel n bs).map (fun x => (MVal.mmap x.1, x.2)) := by
  simp only [decodeV]
  rw [if_neg (by rw [isStrHead_iff]; omega), if_neg (by omega), if_pos (by omega)]
  rw [show 128 + n - 128 = n by omega]

theorem decodeV_fixarr (fuel n : Nat) (bs : List Nat) (h : n < 16) :
    decodeV (fuel+1) ((144 + n) :: bs) =
      (decodeL fuel n bs).map (fun x => (MVal.marr x.1, x.2)) := by
  simp only [decodeV]
  rw [if_neg (by rw [isStrHead_iff]; omega), if_neg (by omega), if_neg (by omega),
    if_pos (by omega)]
  rw [show 144 + n - 144 = n by omega]

theorem decodeV_u8 (fuel c : Nat) (r : List Nat) :
    decodeV (fuel+1) (204 :: c :: r) = some (.mint c, r) := by
  simp [decodeV, isStrHead]

theorem decodeV_u16 (fuel c1 c2 : Nat) (r : List Nat) :
    decodeV (fuel+1) (205 :: c1 :: c2 :: r) =
      some (.mint ((c1 : Int) * 256 + (c2 : Int)), r) := by
  simp [decodeV, isStrHead]

theorem decodeV_u32 (fuel c1 c2 c3 c4 : Nat) (r : List Nat) :
    decodeV (fuel+1) (206 :: c1 :: c2 :: c3 :: c4 :: r) =
      some (.mint ((((c1 : Int) * 256 + (c2 : Int)) * 256 + (c3 : Int)) * 256 + (c4 : Int)), r) := by
  simp [decodeV, isStrHead]

theorem decodeV_i8 (fuel c : Nat) (r : List Nat) :
    decodeV (fuel+1) (208 :: c :: r) =
      some (.mint (if 128 ≤ c then (c : Int) - 256 else (c : Int)), r) := by
  simp [decodeV, isStrHead]

theorem decodeV_i16 (fuel c1 c2 : Nat) (r : List Nat) :
    decodeV (fuel+1) (209 :: c1 :: c2 :: r) =
      some (.mint (if 32768 ≤ c1 * 256 + c2 then ((c1 * 256 + c2 : Nat) : Int) - 65536
        else ((c1 * 256 + c2 : Nat) : Int)), r) := by
  simp [decodeV, isStrHead]

theorem decodeV_i32 (fuel c1 c2 c3 c4 : Nat) (r : List Nat) :
    decodeV (fuel+1) (210 :: c1 :: c2 :: c3 :: c4 :: r) =
      some (.mint (if 2147483648 ≤ ((c1 * 256 + c2) * 256 + c3) * 256 + c4 then
          ((((c1 * 256 + c2) * 256 + c3) * 256 + c4 : Nat) : Int) - 4294967296
        else ((((c1 * 256 + c2) * 256 + c3) * 256 + c4 : Nat) : Int)), r) := by
  simp [decodeV, isStrHead]

theorem decodeV_arr16 (fuel b1 b2 : Nat) (r : List Nat) :
    decodeV (fuel+1) (220 :: b1 :: b2 :: r) =
      (decodeL fuel (b1 * 256 + b2) r).map (fun x => (MVal.marr x.1, x.2)) := by
  simp [decodeV, isStrHead]

theorem decodeV_arr32 (fuel b1 b2 b3 b4 : Nat) (r : List Nat) :
    decodeV (fuel+1) (221 :: b1 :: b2 :: b3 :: b4 :: r) =
      (decodeL fuel (((b1 * 256 + b2) * 256 + b3) * 256 + b4) r).map
        (fun x => (MVal.marr x.1, x.2)) := by
  simp [decodeV, isStrHead]

theorem decodeV_map16 (fuel b1 b2 : Nat) (r : List Nat) :
    decodeV (fuel+1) (222 :: b1 :: b2 :: r) =
      (decodeP fuel (b1 * 256 + b2) r).map (fun x => (MVal.mmap x.1, x.2)) := by
  simp [decodeV, isStrHead]

theorem decodeV_map32 (fuel b1 b2 b3 b4 : Nat) (r : List Nat) :
    decodeV (fuel+1) (223 :: b1 :: b2 :: b3 :: b4 :: r) =
      (decodeP fuel (((b1 * 256 + b2) * 256 + b3) * 256 + b4) r).map
        (fun x => (MVal.mmap x.1, x.2)) := by
  simp [decodeV, isStrHead]

theorem decodeV_encodeInt (n : Int) (h : validInt n = true) (fuel : Nat) (r : List Nat) :
    decodeV (fuel+1) (encodeInt n ++ r) = some (.mint n, r) := by
  simp only [validInt, Bool.and_eq_true, decide_eq_true_eq] at h
  obtain ⟨h1, h2⟩ := h
  by_cases hpos : 0 ≤ n
  · by_cases ha : n.toNat < 128
    · have hE : encodeInt n ++ r = n.toNat :: r := by
        simp [encodeInt, hpos, ha]
      rw [hE, decodeV_posfix _ _ _ ha]
      simp only [Option.some.injEq, Prod.mk.injEq, MVal.mint.injEq, and_true]
      omega
    · by_cases hb : n.toNat < 256
      · have hE : encodeInt n ++ r = 204 :: n.toNat :: r := by
          simp [encodeInt, hpos, ha, hb]
        rw [hE, decodeV_u8]
        simp only [Option.some.injEq, Prod.mk.injEq, MVal.mint.injEq, and_true]
        omega
      · by_cases hc : n.toNat < 65536
        · have hE : encodeInt n ++ r =
              205 :: (n.toNat / 256 % 256) :: (n.toNat % 256) :: r := by
            simp [encodeInt, be2, hpos, ha, hb, hc]
          rw [hE, decodeV_u16]
          simp only [Option.some.injEq, Prod.mk.injEq, MVal.mint.injEq, and_true]
          omega
        · have hE : encodeInt n ++ r = 206 :: (n.toNat / 16777216 % 256) ::
              (n.toNat / 65536 % 256) :: (n.toNat / 256 % 256) :: (n.toNat % 256) :: r := by
            simp [encodeInt, be4, hpos, ha, hb, hc]
          rw [hE, decodeV_u32]
          simp only [Option.some.injEq, Prod.mk.injEq, MVal.mint.injEq, and_true]
          omega
  · by_cases ha : -32 ≤ n
    · have hE : encodeInt n ++ r = (n + 256).toNat :: r := by
        simp [encodeInt, hpos, ha]
      rw [hE, decodeV_negfix _ _ _ (by omega) (by omega)]
      simp only [Option.some.injEq, Prod.mk.injEq, MVal.mint.injEq, and_true]
      omega
    · by_cases hb : -128 ≤ n
      · have hE : encodeInt n ++ r = 208 :: (n + 256).toNat :: r := by
          simp [encodeInt, hpos, ha, hb]
        rw [hE, decodeV_i8, if_pos (by omega)]
        simp only [Option.some.injEq, Prod.mk.injEq, MVal.mint.injEq, and_true]
        omega
      · by_cases hc : -32768 ≤ n
        · have hE : encodeInt n ++ r =
              209 :: ((n + 65536).toNat / 256 % 256) :: ((n + 65536).toNat % 256) :: r := by
            simp [encodeInt, be2, hpos, ha, hb, hc]
          rw [hE, decodeV_i16, if_pos (by omega)]
          simp only [Option.some.injEq, Prod.mk.injEq, MVal.mint.injEq, and_true]
          omega
        · have hE : encodeInt n ++ r = 210 :: ((n + 4294967296).toNat / 16777216 % 256) ::
              ((n + 4294967296).toNat / 65536 % 256) :: ((n + 4294967296).toNat / 256 % 256) ::
              ((n + 4294967296).toNat % 256) :: r := by
            simp [encodeInt, be4, hpos, ha, hb, hc]
          rw [hE, decodeV_i32, if_pos (by omega)]
          simp only [Option.some.injEq, Prod.mk.injEq, MVal.mint.injEq, and_true]
          omega

theorem decodeV_encodeStr (s : List Nat) (h : validStrBytes s = true) (g : Nat)
    (r : List Nat) : decodeV (g+1) (encodeStr s ++ r) = some (.mstr s, r) := by
  have hlen := validStrBytes_length h
  have hrs := readStr_encodeStr s h r
  by_cases h32 : s.length < 32
  · have hE : encodeStr s ++ r = (160 + s.length) :: (s ++ r) := by
      simp [encodeStr, strHeader, if_pos h32]
    rw [hE, decodeV_strhead _ _ _ (by rw [isStrHead_iff]; omega), ← hE, hrs]; rfl
  · by_cases h256 : s.length < 256
    · have hE : encodeStr s ++ r = 217 :: s.length :: (s ++ r) := by
        simp [encodeStr, strHeader, h32, h256]
      rw [hE, decodeV_strhead _ _ _ (by rw [isStrHead_iff]; omega), ← hE, hrs]; rfl
    · by_cases h65 : s.length < 65536
      · have hE : encodeStr s ++ r =
            218 :: (s.length / 256 % 256) :: (s.length % 256) :: (s ++ r) := by
          simp [encodeStr, strHeader, be2, h32, h256, h65]
        rw [hE, decodeV_strhead _ _ _ (by rw [isStrHead_iff]; omega), ← hE, hrs]; rfl
      · have hE : encodeStr s ++ r =
            219 :: (s.length / 16777216 % 256) :: (s.length / 65536 % 256) ::
              (s.length / 256 % 256) :: (s.length % 256) :: (s ++ r) := by
          simp [encodeStr, strHeader, be4, h32, h256, h65]
        rw [hE, decodeV_strhead _ _ _ (by rw [isStrHead_iff]; omega), ← hE, hrs]; rfl

theorem decodeL_zero (fuel : Nat) (bs : List Nat) :
    decodeL fuel 0 bs = some (.mnil, bs) := by
  cases fuel <;> rfl

theorem decodeL_succ (fuel n : Nat) (bs : List Nat) :
    decodeL (fuel+1) (n+1) bs =
      (decodeV fuel bs).bind fun x =>
        (decodeL fuel n x.2).map fun y => (.mcons x.1 y.1, y.2) := rfl

theorem decodeP_zero (fuel : Nat) (bs : List Nat) :
    decodeP fuel 0 bs = some (.pnil, bs) := by
  cases fuel <;> rfl

theorem decodeP_succ (fuel n : Nat) (bs : List Nat) :
    decodeP (fuel+1) (n+1) bs =
      (readStr bs).bind fun k =>
        (decodeV fuel k.2).bind fun x =>
          (decodeP fuel n x.2).map fun y => (.pcons k.1 x.1 y.1, y.2) := rfl

mutual
theorem decodeV_encodeV (v : MVal) (hv : validV v = true) (fuel : Nat)
    (hf : countV v ≤ fuel) (r : List Nat) :
    decodeV fuel (encodeV v ++ r) = some (v, r) := by
  cases v with
  | mint n =>
    cases fuel with
    | zero => exact absurd hf (by simp only [countV]; omega)
    | succ g =>
      have h := decodeV_encodeInt n (by simpa [validV] using hv) g r
      simpa [encodeV] using h
  | mstr s =>
    cases fuel with
    | zero => exact absurd hf (by simp only [countV]; omega)
    | succ g =>
      have h := decodeV_encodeStr s (by simpa [validV] using hv) g r
      simpa [encodeV] using h
  | marr l =>
    cases fuel with
    | zero => exact absurd hf (by simp only [countV]; omega)
    | succ g =>
      simp only [validV, Bool.and_eq_true, decide_eq_true_eq] at hv
      simp only [countV] at hf
      by_cases h16 : l.length < 16
      · have hE : encodeV (.marr l) ++ r = (144 + l.length) :: (encodeL l ++ r) := by
          simp [encodeV, arrHeader, if_pos h16]
        rw [hE, decodeV_fixarr g l.length _ h16,
          decodeL_encodeL l hv.2 g (by omega) r]; rfl
      · by_cases h65 : l.length < 65536
        · have hE : encodeV (.marr l) ++ r =
              220 :: (l.length / 256 % 256) :: (l.length % 256) :: (encodeL l ++ r) := by
            simp [encodeV, arrHeader, be2, h16, h65]
          rw [hE, decodeV_arr16,
            show l.length / 256 % 256 * 256 + l.length % 256 = l.length by omega,
            decodeL_encodeL l hv.2 g (by omega) r]; rfl
        · have hE : encodeV (.marr l) ++ r =
              221 :: (l.length / 16777216 % 256) :: (l.length / 65536 % 256) ::
                (l.length / 256 % 256) :: (l.length % 256) :: (encodeL l ++ r) := by
            simp [encodeV, arrHeader, be4, h16, h65]
          have h32 := hv.1
          rw [hE, decodeV_arr32,
            show ((l.length / 16777216 % 256 * 256 + l.length / 65536 % 256) * 256 +
              l.length / 256 % 256) * 256 + l.length % 256 = l.length by omega,
            decodeL_encodeL l hv.2 g (by omega) r]; rfl
  | mmap p =>
    cases fuel with
    | zero => exact absurd hf (by simp only [countV]; omega)
    | succ g =>
      simp only [validV, Bool.and_eq_true, decide_eq_true_eq] at hv
      simp only [countV] at hf
      by_cases h16 : p.length < 16
      · have hE : encodeV (.mmap p) ++ r = (128 + p.length) :: (encodeP p ++ r) := by
          simp [encodeV, mapHeader, if_pos h16]
        rw [hE, decodeV_fixmap g p.length _ h16,
          decodeP_encodeP p hv.2 g (by omega) r]; rfl
      · by_cases h65 : p.length < 65536
        · have hE : encodeV (.mmap p) ++ r =
              222 :: (p.length / 256 % 256) :: (p.length % 256) :: (encodeP p ++ r) := by
            simp [encodeV, mapHeader, be2, h16, h65]
          rw [hE, decodeV_map16,
            show p.length / 256 % 256 * 256 + p.length % 256 = p.length by omega,
            decodeP_encodeP p hv.2 g (by omega) r]; rfl
        · have hE : encodeV (.mmap p) ++ r =
              223 :: (p.length / 16777216 % 256) :: (p.length / 65536 % 256) ::
                (p.length / 256 % 256) :: (p.length % 256) :: (encodeP p ++ r) := by
            simp [encodeV, mapHeader, be4, h16, h65]
          have h32 := hv.1
          rw [hE, decodeV_map32,
            show ((p.length / 16777216 % 256 * 256 + p.length / 65536 % 256) * 256 +
              p.length / 256 % 256) * 256 + p.length % 256 = p.length by omega,
            decodeP_encodeP p hv.2 g (by omega) r]; rfl
theorem decodeL_encodeL (l : MList) (hl : validL l = true) (fuel : Nat)
    (hf : countL l ≤ fuel) (r : List Nat) :
    decodeL fuel l.length (encodeL l ++ r) = some (l, r) := by
  cases l with
  | mnil => simp [encodeL, MList.length, decodeL_zero]
  | mcons v l =>
    cases fuel with
    | zero => exact absurd hf (by simp only [countL]; omega)
    | succ g =>
      simp only [validL, Bool.and_eq_true] at hl
      simp only [countL] at hf
      simp only [MList.length, encodeL, List.append_assoc, decodeL_succ]
      rw [decodeV_encodeV v hl.1 g (by omega) (encodeL l ++ r)]
      simp only [Option.some_bind]
      rw [decodeL_encodeL l hl.2 g (by omega) r]
      rfl
theorem decodeP_encodeP (p : MPairs) (hp : validP p = true) (fuel : Nat)
    (hf : countP p ≤ fuel) (r : List Nat) :
    decodeP fuel p.length (encodeP p ++ r) = some (p, r) := by
  cases p with
  | pnil => simp [encodeP, MPairs.length, decodeP_zero]
  | pcons k v p =>
    cases fuel with
    | zero => exact absurd hf (by simp only [countP]; omega)
    | succ g =>
      simp only [validP, Bool.and_eq_true] at hp
      simp only [countP] at hf
      simp only [MPairs.length, encodeP, List.append_assoc, decodeP_succ]
      rw [readStr_encodeStr k hp.1.1 (encodeV v ++ (encodeP p ++ r))]
      simp only [Option.some_bind]
      rw [decodeV_encodeV v hp.1.2 g (by omega) (encodeP p ++ r)]
      simp only [Option.some_bind]
      rw [decodeP_encodeP p hp.2 g (by omega) r]
      rfl
end

theorem encodeInt_length_pos (n : Int) : 1 ≤ (encodeInt n).length := by
  unfold encodeInt
  dsimp only
  split_ifs <;> simp [be2, be4]

theorem strHeader_length_pos (len : Nat) : 1 ≤ (strHeader len).length := by
  unfold strHeader
  split_ifs <;> simp [be2, be4]

theorem arrHeader_length_pos (len : Nat) : 1 ≤ (arrHeader len).length := by
  unfold arrHeader
  split_ifs <;> simp [be2, be4]

theorem mapHeader_length_pos (len : Nat) : 1 ≤ (mapHeader len).length := by
  unfold mapHeader
  split_ifs <;> simp [be2, be4]

mutual
theorem countV_bound (v : MVal) : countV v + 1 ≤ 2 * (encodeV v).length := by
  cases v with
  | mint n =>
    have h := encodeInt_length_pos n
    simp only [countV, encodeV]
    omega
  | mstr s =>
    have h := strHeader_length_pos s.length
    simp only [countV, encodeV, encodeStr, List.length_append]
    omega
  | marr l =>
    have h1 := countL_bound l
    have h2 := arrHeader_length_pos l.length
    simp only [countV, encodeV, List.length_append]
    omega
  | mmap p =>
    have h1 := countP_bound p
    have h2 := mapHeader_length_pos p.length
    simp only [countV, encodeV, List.length_append]
    omega
theorem countL_bound (l : MList) : countL l ≤ 2 * (encodeL l).length := by
  cases l with
  | mnil => simp [countL, encodeL]
  | mcons v l =>
    have h1 := countV_bound v
    have h2 := countL_bound l
    simp only [countL, encodeL, List.length_append]
    omega
theorem countP_bound (p : MPairs) : countP p ≤ 2 * (encodeP p).length := by
  cases p with
  | pnil => simp [countP, encodeP]
  | pcons k v p =>
    have h1 := countV_bound v
    have h2 := countP_bound p
    simp only [countP, encodeP, List.length_append]
    omega
end

/-- Round-trip of the modelled codec on every representable value. -/
theorem decode_encode (v : MVal) (h : validV v = true) : decode (encode v) = some v := by
  have hb := countV_bound v
  have h1 := decodeV_encodeV v h (2 * (encodeV v).length) (by omega) []
  rw [List.append_nil] at h1
  simp [decode, encode, h1]

theorem isIndexPair_validV (v : MVal) (h : isIndexPair v = true) : validV v = true := by
  unfold isIndexPair at h
  split at h
  · simp only [Bool.and_eq_true] at h
    simp [validV, validL, MList.length, h.1, h.2]
  · exact absurd h (by simp)

theorem isInitData_validV (v : MVal) (h : isInitData v = true) : validV v = true := by
  unfold isInitData at h
  split at h
  · simp only [Bool.and_eq_true, beq_iff_eq] at h
    obtain ⟨⟨⟨⟨⟨ha, hb⟩, hc⟩, hi⟩, hk⟩, hx⟩ := h
    subst ha hb hc
    have := isIndexPair_validV _ hx
    simp [validV, validP, MPairs.length, keyId, keyKind, keyIndex, validStrBytes,
      hi, hk, this]
  · exact absurd h (by simp)

theorem isUpdateData_validV (v : MVal) (h : isUpdateData v = true) : validV v = true := by
  unfold isUpdateData at h
  split at h
  · simp only [Bool.and_eq_true, beq_iff_eq] at h
    obtain ⟨⟨⟨ha, hc⟩, hi⟩, hx⟩ := h
    subst ha hc
    have := isIndexPair_validV _ hx
    simp [validV, validP, MPairs.length, keyId, keyIndex, validStrBytes, hi, this]
  · exact absurd h (by simp)

theorem isIntId_validV (v : MVal) (h : isIntId v = true) : validV v = true := by
  unfold isIntId at h
  split at h
  · simpa [validV] using h
  · exact absurd h (by simp)

theorem allL_validL (f : MVal → Bool) (hf : ∀ v, f v = true → validV v = true) :
    ∀ l : MList, allL f l = true → validL l = true
  | .mnil, _ => rfl
  | .mcons v l, hl => by
    simp only [allL, Bool.and_eq_true] at hl
    simp only [validL, Bool.and_eq_true]
    exact ⟨hf v hl.1, allL_validL f hf l hl.2⟩

theorem isUpdatePayload_validV (v : MVal) (h : isUpdatePayload v = true) :
    validV v = true := by
  unfold isUpdatePayload at h
  split at h
  · simp only [Bool.and_eq_true, decide_eq_true_eq] at h
    obtain ⟨⟨⟨⟨⟨⟨⟨⟨hms, hla⟩, ha⟩, hlu⟩, hu⟩, hld⟩, hd⟩, hle⟩, he⟩ := h
    have hva := allL_validL isInitData isInitData_validV _ ha
    have hvu := allL_validL isUpdateData isUpdateData_validV _ hu
    have hvd := allL_validL isIntId isIntId_validV _ hd
    have hve := allL_validL isIntId isIntId_validV _ he
    simp [validV, validL, MList.length, hms, hla, hva, hlu, hvu, hld, hvd, hle, hve]
  · exact absurd h (by simp)

theorem validEnvelope_validV (e : MVal) (h : validEnvelope e = true) :
    validV e = true := by
  unfold validEnvelope at h
  split at h
  · simp only [Bool.or_eq_true, Bool.and_eq_true, beq_iff_eq] at h
    rcases h with ⟨ht, hp⟩ | ⟨ht, hp⟩ <;> subst ht
    · rcases hp with hp | hp
      · have := isIntId_validV _ hp
        simp [validV, validL, MList.length, validInt, this]
      · unfold isJoinOutPayload at hp
        split at hp
        · simp [validV, validL, MList.length, validInt, hp]
        · exact absurd hp (by simp)
    · rcases hp with hp | hp
      · have := isUpdatePayload_validV _ hp
        simp [validV, validL, MList.length, validInt, this]
      · have := isIndexPair_validV _ hp
        simp [validV, validL, MList.length, validInt, this]
  · exact absurd h (by simp)

/-! ## Dispatcher lemmas -/

/-- The effects of `onUpdate` on a well-shaped Update payload, in source
order. -/
theorem onUpdate_updData (m : MVal) (a u dis des : MList) :
    onUpdate (updData m a u dis des) =
      Effect.game (.setMapSize (some m)) ::
        (a.toList.map (fun e => Effect.game (.addEntity e)) ++
          (u.toList.map (fun e => Effect.game (.updateEntityCall e)) ++
            (dis.toList.map (fun e => Effect.game (.removeEntity e false)) ++
              des.toList.map (fun e => Effect.game (.removeEntity e true))))) := by
  simp [onUpdate, updData, jsIdx, MList.get?, forEachEffects]

theorem foldl_effects (g : List Nat → List Effect) (l : List (List Nat)) :
    ∀ init : List Effect,
      l.foldl (fun acc x => acc ++ g x) init = init ++ l.foldl (fun acc x => acc ++ g x) [] := by
  induction l with
  | nil => intro init; simp
  | cons x l ih =>
    intro init
    simp only [List.foldl_cons, List.nil_append]
    rw [ih (init ++ g x), ih (g x), List.append_assoc]

/-- Delivering a frame and then the rest produces the frame's handler
effects followed by the rest's. -/
theorem processFrames_cons (f : List Nat) (rest : List (List Nat)) :
    processFrames (f :: rest) = onMessage f ++ processFrames rest := by
  unfold processFrames
  simp only [List.foldl_cons, List.nil_append]
  exact foldl_effects onMessage rest (onMessage f)

/-- Elements produced by a successful `forEach` are world-collaborator
calls. -/
theorem forEachEffects_game (v : Option MVal) (f : MVal → GameCall) (l : List Effect)
    (h : forEachEffects v (fun x => Effect.game (f x)) = some l) (e : Effect)
    (he : e ∈ l) : ∃ c, e = Effect.game c := by
  unfold forEachEffects at h
  split at h
  · obtain rfl := Option.some.inj h
    obtain ⟨x, _, rfl⟩ := List.mem_map.mp he
    exact ⟨f x, rfl⟩
  · exact absurd h (by simp)

/-- Every effect of the Update handler is a world-collaborator call or the
fault of a thrown `forEach`. -/
theorem onUpdate_mem (data : Option MVal) (e : Effect) (he : e ∈ onUpdate data) :
    (∃ c, e = Effect.game c) ∨ e = Effect.fault := by
  unfold onUpdate at he
  rcases List.mem_cons.mp he with rfl | he
  · exact .inl ⟨_, rfl⟩
  rcases hF1 : forEachEffects (jsIdx data 1) (fun x => Effect.game (.addEntity x))
    with _ | l1 <;> rw [hF1] at he
  · exact .inr (by simpa using he)
  rcases List.mem_append.mp he with he | he
  · exact .inl (forEachEffects_game _ _ _ hF1 e he)
  rcases hF2 : forEachEffects (jsIdx data 2) (fun x => Effect.game (.updateEntityCall x))
    with _ | l2 <;> rw [hF2] at he
  · exact .inr (by simpa using he)
  rcases List.mem_append.mp he with he | he
  · exact .inl (forEachEffects_game _ _ _ hF2 e he)
  rcases hF3 : forEachEffects (jsIdx data 3) (fun x => Effect.game (.removeEntity x false))
    with _ | l3 <;> rw [hF3] at he
  · exact .inr (by simpa using he)
  rcases List.mem_append.mp he with he | he
  · exact .inl (forEachEffects_game _ _ _ hF3 e he)
  rcases hF4 : forEachEffects (jsIdx data 4) (fun x => Effect.game (.removeEntity x true))
    with _ | l4 <;> rw [hF4] at he
  · exact .inr (by simpa using he)
  · exact .inl (forEachEffects_game _ _ _ hF4 e he)

/-- The missing-type warning is never among a handler run's effects. -/
theorem onMessage_no_logWarn (frame : List Nat) :
    Effect.logWarn noTypeMsg ∉ onMessage frame := by
  intro hmem
  unfold onMessage at hmem
  cases hd : decode frame <;> rw [hd] at hmem
  · simp at hmem
  · simp only [noTypeGuard, jsLooseEqUndefined, if_false, Bool.false_eq_true,
      reduceIte] at hmem
    split_ifs at hmem
    · simp [onJoin] at hmem
    · rcases onUpdate_mem _ _ hmem with ⟨c, hc⟩ | hc <;> simp at hc
    · simp at hmem

/-! ## The claims -/

/-- C1, counterexample: in the Update handler the disappeared id 5 is
removed with `animated = false` (not `true`), and the destroyed id 9 with
`animated = true` (not `false`) — the opposite of the claimed flags. -/
theorem C1_counterexample :
    (MVal.mint 5) ∈ (MList.mcons (.mint 5) .mnil).toList
  ∧ Effect.game (.removeEntity (.mint 5) true) ∉ onUpdate updDataRemovals
  ∧ (MVal.mint 9) ∈ (MList.mcons (.mint 9) .mnil).toList
  ∧ Effect.game (.removeEntity (.mint 9) false) ∉ onUpdate updDataRemovals := by
  decide

/-- C1, amended: for every Update payload, each id in the disappearedIds
list triggers `removeEntity(id, false)` (non-animated removal) and each id
in the destroyedIds list triggers `removeEntity(id, true)` (animated
removal). -/
theorem C1_amended_thm (m : MVal) (a u dis des : MList) (i : MVal) :
    (i ∈ dis.toList →
      Effect.game (.removeEntity i false) ∈ onUpdate (updData m a u dis des))
  ∧ (i ∈ des.toList →
      Effect.game (.removeEntity i true) ∈ onUpdate (updData m a u dis des)) := by
  rw [onUpdate_updData]
  constructor <;> intro hid <;>
    simp only [List.mem_cons, List.mem_append, List.mem_map]
  · exact Or.inr (Or.inr (Or.inr (Or.inl ⟨i, hid, rfl⟩)))
  · exact Or.inr (Or.inr (Or.inr (Or.inr ⟨i, hid, rfl⟩)))

/-- Witness for C1's amended theorem at the concrete removal payload. -/
theorem C1_amended_witness :
    Effect.game (.removeEntity (.mint 5) false) ∈ onUpdate updDataRemovals
  ∧ Effect.game (.removeEntity (.mint 9) true) ∈ onUpdate updDataRemovals :=
  ⟨(C1_amended_thm (.mint 7) .mnil .mnil (.mcons (.mint 5) .mnil)
      (.mcons (.mint 9) .mnil) (.mint 5)).1 (by decide),
    (C1_amended_thm (.mint 7) .mnil .mnil (.mcons (.mint 5) .mnil)
      (.mcons (.mint 9) .mnil) (.mint 9)).2 (by decide)⟩

/-- C2: decoding the bytes produced by encoding any envelope of the
wire-format table yields the envelope again. -/
theorem C2_roundtrip (e : MVal) (h : validEnvelope e = true) :
    decode (encode e) = some e :=
  decode_encode e (validEnvelope_validV e h)

/-- Witness for C2 at a concrete Update envelope. -/
theorem C2_roundtrip_witness :
    validEnvelope exEnvelope = true ∧ decode (encode exEnvelope) = some exEnvelope :=
  ⟨by decide, C2_roundtrip exEnvelope (by decide)⟩

/-- C4, counterexample: with the session in the closed state, `sendJoin`
still hands the encoded `[Join, "bob"]` frame to the socket's send — the
send path is invoked, so the claimed "does not invoke the transport's send
path" fails. -/
theorem C4_counterexample :
    ReadyState.closed ≠ ReadyState.opened
  ∧ sendJoin ReadyState.closed [98, 111, 98] ≠ []
  ∧ sendJoin ReadyState.closed [98, 111, 98] = [[146, 0, 163, 98, 111, 98]] := by
  decide

/-- C4, amended: `sendMessage` performs no ready-state check — in every
session state the call raises nothing itself and hands exactly one encoded
envelope frame to `socket.send`, identically to the open state (nothing is
queued); dropping or raising is then the external WebSocket's behavior. -/
theorem C4_amended_thm (st : ReadyState) (ty : Int) (data : MVal) :
    sendMessage st ty data = [encode (.marr (.mcons (.mint ty) (.mcons data .mnil)))]
  ∧ sendMessage st ty data = sendMessage ReadyState.opened ty data :=
  ⟨rfl, rfl⟩

/-- C6: the Update handler's effects come in the fixed source order — map
size replacement, then the appeared creations, then the updates, then the
disappeared removals, then the destroyed removals. -/
theorem C6_fixed_order (m : MVal) (a u dis des : MList) :
    onUpdate (updData m a u dis des) =
      Effect.game (.setMapSize (some m)) ::
        (a.toList.map (fun e => Effect.game (.addEntity e)) ++
          (u.toList.map (fun e => Effect.game (.updateEntityCall e)) ++
            (dis.toList.map (fun e => Effect.game (.removeEntity e false)) ++
              des.toList.map (fun e => Effect.game (.removeEntity e true))))) :=
  onUpdate_updData m a u dis des

/-- C7: a frame whose bytes fail to decode is recovered locally — the
handler only logs the parse error and discards the frame (no world
mutation, no fault, no close), and the following frames are still
processed. -/
theorem C7_malformed_recovery (frame : List Nat) (h : decode frame = none)
    (rest : List (List Nat)) :
    onMessage frame = [Effect.logError couldNotParseMsg]
  ∧ processFrames (frame :: rest) =
      Effect.logError couldNotParseMsg :: processFrames rest := by
  have h1 : onMessage frame = [Effect.logError couldNotParseMsg] := by
    simp [onMessage, h]
  exact ⟨h1, by rw [processFrames_cons, h1]; rfl⟩

/-- Witness for C7 at the truncated frame `[205]` (a str16 marker with no
payload). -/
theorem C7_witness :
    onMessage [205] = [Effect.logError couldNotParseMsg]
  ∧ processFrames ([205] :: []) =
      Effect.logError couldNotParseMsg :: processFrames [] :=
  C7_malformed_recovery [205] (by decide) []

/-- C9: the guard `typeof type == undefined` is false for every possible
type value (a `typeof` result is a string, and a string is never loosely
equal to the undefined value), so the missing-type warning is unreachable
for every frame, and an envelope with no type field at all falls through
the `switch` to the unknown-type branch. -/
theorem C9_guard_unreachable :
    (∀ ty : Option MVal, noTypeGuard ty = false)
  ∧ (∀ frame : List Nat, (onMessage frame).contains (Effect.logWarn noTypeMsg) = false)
  ∧ onMessage (encode (.marr .mnil)) = [Effect.logError unknownTypeMsg] := by
  refine ⟨fun ty => rfl, fun frame => ?_, by decide⟩
  simpa using onMessage_no_logWarn frame

end Scrunch
